import Mathlib

/-!
Verification of the rust-llm-api backend (src/db.rs, src/api.rs, src/groq.rs,
src/main.rs) against its natural-language specification.

The relational store is shallowly embedded: each SQLite table becomes a list
of row structures inside `DbState`, AUTOINCREMENT becomes per-table counters,
`CURRENT_TIMESTAMP` becomes an explicit `now : Nat` argument, and every
`Db::*` method of src/db.rs becomes a pure state-passing function.  SQL
statements that can fail on a foreign-key violation (with
`PRAGMA foreign_keys = ON`) return `Option`.  REAL columns are modelled over
`Int`: the code never computes with them, it only stores and returns them.
-/

/- ------------------------------------------------------------------ -/
/- Rows: one structure per table of the schema created in Db::init.   -/

structure AccountRow where
  id : Int
  name : String
  email : String
  password_hash : String
  created_at : Nat
deriving Repr, DecidableEq

structure GroupRow where
  id : Int
  group_name : String
  created_by : Int
  created_at : Nat
deriving Repr, DecidableEq

structure GroupUserRow where
  id : Int
  group_id : Int
  user_id : Int
  role : String
  joined_at : Nat
deriving Repr, DecidableEq

structure NoteRow where
  id : Int
  title : Option String
  content : Option String
  color : String
  x : Int
  y : Int
  width : Int
  height : Int
  z_index : Int
  created_by : Option Int
  created_at : Nat
  updated_at : Nat
deriving Repr, DecidableEq

structure NoteShareRow where
  id : Int
  note_id : Int
  group_id : Int
  can_edit : Bool
  shared_at : Nat
deriving Repr, DecidableEq

/-- Row shape returned by Db::list_notes_for_group (notes joined with
note_shares). -/
structure SharedNote where
  id : Int
  title : Option String
  content : Option String
  color : String
  x : Int
  y : Int
  width : Int
  height : Int
  z_index : Int
  created_by : Option Int
  created_at : Nat
  updated_at : Nat
  group_id : Int
  can_edit : Bool
  shared_at : Nat
deriving Repr, DecidableEq

/-- Row shape returned by Db::list_groups_for_user (groups joined with
group_users, carrying the membership role). -/
structure GroupWithRole where
  id : Int
  group_name : String
  created_by : Int
  created_at : Nat
  role : String
deriving Repr, DecidableEq

/-- The whole notes/groups database.  The `next*` counters model SQLite
AUTOINCREMENT rowids for the five tables. -/
structure DbState where
  accounts : List AccountRow
  groups : List GroupRow
  group_users : List GroupUserRow
  notes : List NoteRow
  note_shares : List NoteShareRow
  nextAccountId : Int
  nextGroupId : Int
  nextGroupUserId : Int
  nextNoteId : Int
  nextNoteShareId : Int
deriving Repr, DecidableEq

def emptyDb : DbState :=
  { accounts := [], groups := [], group_users := [], notes := [], note_shares := []
  , nextAccountId := 1, nextGroupId := 1, nextGroupUserId := 1
  , nextNoteId := 1, nextNoteShareId := 1 }

/- ------------------------------------------------------------------ -/
/- Color normalization (api.rs `normalize_color`), at character level. -/

/-- Rust `char::is_ascii_hexdigit`: 0-9, a-f, A-F. -/
def isAsciiHexDigit (c : Char) : Bool :=
  (48 ≤ c.toNat && c.toNat ≤ 57) || (97 ≤ c.toNat && c.toNat ≤ 102)
    || (65 ≤ c.toNat && c.toNat ≤ 70)

/-- Rust `char::is_whitespace`: the Unicode White_Space property, whose 25
code points are U+0009..U+000D, U+0020, U+0085, U+00A0, U+1680,
U+2000..U+200A, U+2028, U+2029, U+202F, U+205F and U+3000. -/
def isRustWhitespace (c : Char) : Bool :=
  (9 ≤ c.toNat && c.toNat ≤ 13) || c.toNat == 32 || c.toNat == 133
    || c.toNat == 160 || c.toNat == 5760
    || (8192 ≤ c.toNat && c.toNat ≤ 8202) || c.toNat == 8232
    || c.toNat == 8233 || c.toNat == 8239 || c.toNat == 8287
    || c.toNat == 12288

/-- Rust `str::trim` on the character list of a string (Unicode whitespace
stripped from both ends). -/
def trimChars (l : List Char) : List Char :=
  ((l.dropWhile isRustWhitespace).reverse.dropWhile isRustWhitespace).reverse

/-- Rust `str::to_lowercase` per scalar (full Unicode case mapping).  The
scalars whose full lowercase is plain ASCII are exactly A-Z and U+212A
KELVIN SIGN, and U+0130 LATIN CAPITAL LETTER I WITH DOT ABOVE is the only
scalar whose lowercase expands (to i followed by U+0307); every other
scalar either lowercases to itself or to a string containing a non-ASCII
character, so keeping it unchanged preserves every comparison against a
plain-ASCII word (likewise the final-sigma context rule, which only picks
between the non-ASCII forms of sigma). -/
def rustToLowerChar (c : Char) : List Char :=
  if 65 ≤ c.toNat && c.toNat ≤ 90 then [Char.ofNat (c.toNat + 32)]
  else if c.toNat == 304 then ['i', Char.ofNat 775]
  else if c.toNat == 8490 then ['k']
  else [c]

/-- Rust `str::to_lowercase`: concatenation of the per-scalar lowercases. -/
def rustToLower (l : List Char) : List Char :=
  l.flatMap rustToLowerChar

/-- Rust `str::len`: the UTF-8 byte length. -/
def utf8Len (l : List Char) : Nat :=
  (l.map Char.utf8Size).sum

/-- Rust `str::starts_with('#')`. -/
def startsWithHash : List Char → Bool
  | c :: _ => c == '#'
  | [] => false

/-- The guard `trimmed.starts_with('#') && trimmed.len() == 7 &&
trimmed.chars().skip(1).all(|c| c.is_ascii_hexdigit())` of normalize_color. -/
def hexColorCond (l : List Char) : Bool :=
  startsWithHash l && utf8Len l == 7 && (l.drop 1).all isAsciiHexDigit

def defaultColor : String := "#FFFF88"

/-- The `match trimmed.to_lowercase().as_str()` palette block of
normalize_color. -/
def namedColorLookup (lowered : String) : String :=
  if lowered = "yellow" then "#FFFF88"
  else if lowered = "pink" then "#FBCFE8"
  else if lowered = "green" then "#BBF7D0"
  else if lowered = "blue" then "#BFDBFE"
  else if lowered = "orange" then "#FED7AA"
  else if lowered = "purple" then "#E9D5FF"
  else defaultColor

/-- api.rs `normalize_color`.  The uppercase branch fires only when the
trimmed input is a hash sign followed by ASCII hex digits, where Rust's
full to_uppercase coincides with the per-character ASCII map. -/
def normalize_color (input : Option String) : String :=
  match input with
  | none => defaultColor
  | some raw =>
    let trimmed := trimChars raw.data
    if trimmed.isEmpty then defaultColor
    else if hexColorCond trimmed then String.mk (trimmed.map Char.toUpper)
    else namedColorLookup (String.mk (rustToLower trimmed))

/-- Spec-side shape of a normalized color: a hash sign followed by exactly
six uppercase hex digits. -/
def isUpperHexDigit (c : Char) : Bool :=
  (48 ≤ c.toNat && c.toNat ≤ 57) || (65 ≤ c.toNat && c.toNat ≤ 70)

def wellFormedHex (s : String) : Bool :=
  startsWithHash s.data && (s.data.drop 1).length == 6
    && (s.data.drop 1).all isUpperHexDigit

/- ------------------------------------------------------------------ -/
/- Storage layer: one pure function per Db method of src/db.rs.       -/

namespace Db

/-- Db::init of the notes/groups variant: every table is dropped and
recreated on startup, so whatever state existed before is discarded. -/
def init (_prior : DbState) : DbState := emptyDb

/-- Db::create_group: one transaction inserting the group row and the
creator's membership row with role owner.  `none` models the rolled-back
transaction when the `created_by` foreign key does not resolve (the
membership row's unique (group_id, user_id) key cannot clash because the
group id is fresh). -/
def create_group (s : DbState) (group_name : String) (created_by : Int)
    (now : Nat) : Option (DbState × Int) :=
  if s.accounts.any (fun a => a.id == created_by) then
    let gid := s.nextGroupId
    some ({ s with
            groups := s.groups ++
              [{ id := gid, group_name := group_name, created_by := created_by
               , created_at := now }]
          , group_users := s.group_users ++
              [{ id := s.nextGroupUserId, group_id := gid, user_id := created_by
               , role := "owner", joined_at := now }]
          , nextGroupId := gid + 1
          , nextGroupUserId := s.nextGroupUserId + 1 }, gid)
  else none

/-- Db::list_groups_for_user: groups INNER JOIN group_users on
gu.group_id = g.id filtered on gu.user_id (rows kept in group insertion
order, which under the monotone clock is the ORDER BY g.created_at ASC
order). -/
def list_groups_for_user (s : DbState) (user_id : Int) : List GroupWithRole :=
  s.groups.flatMap (fun g =>
    (s.group_users.filter (fun gu => gu.group_id == g.id && gu.user_id == user_id)).map
      (fun gu =>
        { id := g.id, group_name := g.group_name, created_by := g.created_by
        , created_at := g.created_at, role := gu.role }))

/-- Db::add_user_to_group: INSERT OR IGNORE into group_users.  A clash on
the UNIQUE (group_id, user_id) key is silently ignored; a foreign-key
violation is not covered by OR IGNORE and still fails (`none`). -/
def add_user_to_group (s : DbState) (group_id user_id : Int) (role : String)
    (now : Nat) : Option DbState :=
  if s.group_users.any (fun gu => gu.group_id == group_id && gu.user_id == user_id) then
    some s
  else if s.groups.any (fun g => g.id == group_id)
      && s.accounts.any (fun a => a.id == user_id) then
    some { s with
           group_users := s.group_users ++
             [{ id := s.nextGroupUserId, group_id := group_id, user_id := user_id
              , role := role, joined_at := now }]
         , nextGroupUserId := s.nextGroupUserId + 1 }
  else none

/-- Db::is_user_in_group. -/
def is_user_in_group (s : DbState) (group_id user_id : Int) : Bool :=
  s.group_users.any (fun gu => gu.group_id == group_id && gu.user_id == user_id)

/-- Db::get_group. -/
def get_group (s : DbState) (group_id : Int) : Option GroupRow :=
  s.groups.find? (fun g => g.id == group_id)

/-- Db::get_account. -/
def get_account (s : DbState) (account_id : Int) : Option AccountRow :=
  s.accounts.find? (fun a => a.id == account_id)

/-- Db::create_note: one transaction inserting the note row and its initial
share row.  `none` models the rolled-back transaction on a foreign-key
violation (creator, if supplied, or group absent); the share's unique
(note_id, group_id) key cannot clash because the note id is fresh. -/
def create_note (s : DbState) (title content : Option String) (color : String)
    (x y width height z_index : Int) (created_by : Option Int)
    (group_id : Int) (can_edit : Bool) (now : Nat) : Option (DbState × Int) :=
  let creatorOk := match created_by with
    | none => true
    | some cid => s.accounts.any (fun a => a.id == cid)
  if creatorOk && s.groups.any (fun g => g.id == group_id) then
    let nid := s.nextNoteId
    some ({ s with
            notes := s.notes ++
              [{ id := nid, title := title, content := content, color := color
               , x := x, y := y, width := width, height := height
               , z_index := z_index, created_by := created_by
               , created_at := now, updated_at := now }]
          , note_shares := s.note_shares ++
              [{ id := s.nextNoteShareId, note_id := nid, group_id := group_id
               , can_edit := can_edit, shared_at := now }]
          , nextNoteId := nid + 1
          , nextNoteShareId := s.nextNoteShareId + 1 }, nid)
  else none

/-- ORDER BY n.z_index ASC, n.updated_at ASC of Db::list_notes_for_group. -/
def noteListOrder (a b : SharedNote) : Prop :=
  a.z_index < b.z_index ∨ (a.z_index = b.z_index ∧ a.updated_at ≤ b.updated_at)

instance : DecidableRel noteListOrder := fun a b => by
  unfold noteListOrder; infer_instance

/-- Db::list_notes_for_group: notes INNER JOIN note_shares on
ns.note_id = n.id, filtered on ns.group_id, sorted by (z_index, updated_at). -/
def list_notes_for_group (s : DbState) (group_id : Int) : List SharedNote :=
  List.insertionSort noteListOrder
    (s.notes.flatMap (fun n =>
      (s.note_shares.filter (fun ns => ns.note_id == n.id && ns.group_id == group_id)).map
        (fun ns =>
          { id := n.id, title := n.title, content := n.content, color := n.color
          , x := n.x, y := n.y, width := n.width, height := n.height
          , z_index := n.z_index, created_by := n.created_by
          , created_at := n.created_at, updated_at := n.updated_at
          , group_id := ns.group_id, can_edit := ns.can_edit
          , shared_at := ns.shared_at })))

/-- Db::update_note_position: UPDATE of every geometry column (plus
updated_at) WHERE id matches; the Bool is rows_affected() > 0. -/
def update_note_position (s : DbState) (note_id : Int)
    (x y width height z_index : Int) (now : Nat) : DbState × Bool :=
  ({ s with notes := s.notes.map (fun n =>
      if n.id == note_id then
        { n with x := x, y := y, width := width, height := height,
                 z_index := z_index, updated_at := now }
      else n) }
  , s.notes.any (fun n => n.id == note_id))

/-- Db::update_note_content: UPDATE of title, content, color (plus
updated_at) WHERE id matches; the Bool is rows_affected() > 0. -/
def update_note_content (s : DbState) (note_id : Int)
    (title content : Option String) (color : String) (now : Nat) :
    DbState × Bool :=
  ({ s with notes := s.notes.map (fun n =>
      if n.id == note_id then
        { n with title := title, content := content, color := color,
                 updated_at := now }
      else n) }
  , s.notes.any (fun n => n.id == note_id))

/-- DELETE FROM notes WHERE id = ?, together with the ON DELETE CASCADE of
note_shares.note_id; the Nat is rows_affected() of the DELETE itself
(SQLite does not count cascaded rows). -/
def deleteNoteRows (s : DbState) (note_id : Int) : DbState × Nat :=
  ({ s with notes := s.notes.filter (fun n => !(n.id == note_id)),
            note_shares := s.note_shares.filter (fun ns => !(ns.note_id == note_id)) }
  , s.notes.countP (fun n => n.id == note_id))

/-- Db::delete_note: the Bool is rows_affected() > 0. -/
def delete_note (s : DbState) (note_id : Int) : DbState × Bool :=
  let r := deleteNoteRows s note_id
  (r.1, r.2 != 0)

/-- One iteration of the clear_notes_for_group loop: delete one selected
note id and add its rows_affected() to the running count. -/
def clearStep (acc : DbState × Nat) (nid : Int) : DbState × Nat :=
  let r := deleteNoteRows acc.1 nid
  (r.1, acc.2 + r.2)

/-- Db::clear_notes_for_group: one transaction that selects every note_id
shared to the group and then deletes those notes one by one, summing
rows_affected(). -/
def clear_notes_for_group (s : DbState) (group_id : Int) : DbState × Nat :=
  let noteIds :=
    (s.note_shares.filter (fun ns => ns.group_id == group_id)).map (fun ns => ns.note_id)
  noteIds.foldl clearStep (s, 0)

/-- Db::count_notes. -/
def count_notes (s : DbState) : Nat := s.notes.length

end Db

/-- Modelled from the spec: the summarization variant's storage layer is not
under src/ (src/main.rs wires it up but its Db type is absent), so its state
is modelled from the spec sentence that it keeps a single summaries table of
immutable append-only records. -/
structure SummaryRow where
  id : Int
  input_text : String
  summary : String
  created_at : Nat
deriving Repr, DecidableEq

/-- Modelled from the spec: the summarization variant's database, a single
summaries table plus a flag recording whether that table exists yet. -/
structure SummaryDbState where
  tableCreated : Bool
  summaries : List SummaryRow
  nextSummaryId : Int
deriving Repr, DecidableEq

/-- Modelled from the spec: the summarization variant's init `creates its
single table only if absent (data is persistent and additive across
restarts)` — CREATE TABLE IF NOT EXISTS, never dropping rows. -/
def summaryDbInit (s : SummaryDbState) : SummaryDbState :=
  if s.tableCreated then s else { s with tableCreated := true }

/- ------------------------------------------------------------------ -/
/- Orchestration layer: the api.rs handlers the claims cite.          -/

/-- Outcome of a handler: success payload, or an HTTP status with the
machine-readable error code of the ErrorBody. -/
inductive ApiResult (α : Type) where
  | ok : α → ApiResult α
  | err : Nat → String → ApiResult α
deriving Repr, DecidableEq

structure CreateGroupRequest where
  group_name : String
  created_by : Int
deriving Repr, DecidableEq

structure CreateNoteRequest where
  title : Option String
  content : Option String
  color : Option String
  x : Int
  y : Int
  width : Option Int
  height : Option Int
  z_index : Option Int
  created_by : Option Int
  can_edit : Option Bool
deriving Repr, DecidableEq

structure UpdateNotePositionRequest where
  x : Int
  y : Int
  width : Option Int
  height : Option Int
  z_index : Option Int
deriving Repr, DecidableEq

structure UpdateNoteContentRequest where
  title : Option String
  content : Option String
  color : Option String
deriving Repr, DecidableEq

def ensure_account_exists (s : DbState) (account_id : Int) : Bool :=
  (Db.get_account s account_id).isSome

def ensure_group_exists (s : DbState) (group_id : Int) : Bool :=
  (Db.get_group s group_id).isSome

namespace Api

/-- api.rs create_group handler. -/
def create_group (s : DbState) (p : CreateGroupRequest) (now : Nat) :
    DbState × ApiResult GroupRow :=
  if (trimChars p.group_name.data).isEmpty then
    (s, .err 400 "group_name_empty")
  else if p.created_by ≤ 0 then
    (s, .err 400 "created_by_invalid")
  else if !(ensure_account_exists s p.created_by) then
    (s, .err 404 "account_not_found")
  else
    match Db.create_group s (String.mk (trimChars p.group_name.data)) p.created_by now with
    | none => (s, .err 500 "internal")
    | some (s2, gid) =>
      match Db.get_group s2 gid with
      | none => (s2, .err 500 "internal")
      | some g => (s2, .ok g)

/-- api.rs create_group_note handler. -/
def create_group_note (s : DbState) (group_id : Int) (p : CreateNoteRequest)
    (now : Nat) : DbState × ApiResult Int :=
  if group_id ≤ 0 then (s, .err 400 "invalid_group_id")
  else if !(ensure_group_exists s group_id) then (s, .err 404 "group_not_found")
  else
    let authorErr : Option (ApiResult Int) := match p.created_by with
      | some aid =>
        if !(ensure_account_exists s aid) then some (.err 404 "account_not_found")
        else if !(Db.is_user_in_group s group_id aid) then some (.err 422 "not_member")
        else none
      | none => none
    match authorErr with
    | some e => (s, e)
    | none =>
      let color := normalize_color p.color
      match Db.create_note s p.title p.content color p.x p.y
          (p.width.getD 200) (p.height.getD 150) (p.z_index.getD 0)
          p.created_by group_id (p.can_edit.getD false) now with
      | none => (s, .err 500 "internal")
      | some (s2, nid) => (s2, .ok nid)

/-- api.rs update_note_position handler (204 is `.ok ()`). -/
def update_note_position (s : DbState) (note_id : Int)
    (p : UpdateNotePositionRequest) (now : Nat) : DbState × ApiResult Unit :=
  if note_id ≤ 0 then (s, .err 400 "invalid_note_id")
  else
    let r := Db.update_note_position s note_id p.x p.y
      (p.width.getD 200) (p.height.getD 150) (p.z_index.getD 0) now
    if r.2 then (r.1, .ok ()) else (r.1, .err 404 "note_not_found")

/-- api.rs update_note_content handler (204 is `.ok ()`). -/
def update_note_content (s : DbState) (note_id : Int)
    (p : UpdateNoteContentRequest) (now : Nat) : DbState × ApiResult Unit :=
  if note_id ≤ 0 then (s, .err 400 "invalid_note_id")
  else
    let color := normalize_color p.color
    let r := Db.update_note_content s note_id p.title p.content color now
    if r.2 then (r.1, .ok ()) else (r.1, .err 404 "note_not_found")

/-- api.rs delete_note handler. -/
def delete_note (s : DbState) (note_id : Int) : DbState × ApiResult Unit :=
  if note_id ≤ 0 then (s, .err 400 "invalid_note_id")
  else
    let r := Db.delete_note s note_id
    if r.2 then (r.1, .ok ()) else (r.1, .err 404 "note_not_found")

/-- api.rs clear_group_notes handler, returning the removed count. -/
def clear_group_notes (s : DbState) (group_id : Int) : DbState × ApiResult Nat :=
  if group_id ≤ 0 then (s, .err 400 "invalid_group_id")
  else if !(ensure_group_exists s group_id) then (s, .err 404 "group_not_found")
  else
    let r := Db.clear_notes_for_group s group_id
    (r.1, .ok r.2)

end Api

/- ------------------------------------------------------------------ -/
/- External completion client (src/groq.rs), with the HTTP transport  -/
/- abstracted into a response oracle.                                 -/

structure ChatMessage where
  role : String
  content : String
deriving Repr, DecidableEq

/-- The outbound POST built by groq.rs summarize: URL, bearer token, and the
JSON body fields model / messages / stream. -/
structure GroqRequest where
  url : String
  bearerToken : String
  model : String
  messages : List ChatMessage
  stream : Bool
deriving Repr, DecidableEq

/-- Minimal JSON value tree, standing for serde_json::Value. -/
inductive JsonValue where
  | null : JsonValue
  | bool : Bool → JsonValue
  | num : Int → JsonValue
  | str : String → JsonValue
  | arr : List JsonValue → JsonValue
  | obj : List (String × JsonValue) → JsonValue
deriving Repr

/-- serde_json::Value::get on an object key. -/
def JsonValue.getKey : JsonValue → String → Option JsonValue
  | .obj fields, key => fields.lookup key
  | _, _ => none

/-- Value::as_array. -/
def JsonValue.asArr : JsonValue → Option (List JsonValue)
  | .arr xs => some xs
  | _ => none

/-- Value::as_str. -/
def JsonValue.asStr : JsonValue → Option String
  | .str s => some s
  | _ => none

/-- What the client observes of the upstream response: the status code, the
body text, and the body's JSON parse when it parses. -/
structure HttpResponse where
  status : Nat
  body : String
  jsonBody : Option JsonValue
deriving Repr

/-- reqwest StatusCode::is_success (2xx). -/
def statusIsSuccess (st : Nat) : Bool := 200 ≤ st && st ≤ 299

def groqUrl : String := "https://api.groq.com/openai/v1/chat/completions"

/-- The fixed instruction text the input is appended to. -/
def groqPromptHeader : String :=
  "要約してください。重要な点を3〜5行で箇条書きにして、日本語で短く。\n\n本文:\n"

/-- The single request summarize builds: fixed URL, bearer token from the
api key, and one user message wrapping the text in the instruction. -/
def groqRequestFor (api_key model text : String) : GroqRequest :=
  { url := groqUrl, bearerToken := api_key, model := model
  , messages := [{ role := "user", content := groqPromptHeader ++ text }]
  , stream := false }

/-- groq.rs summarize.  The transport is a `respond` oracle; the list of
requests handed to it is returned alongside the outcome, so that the
single-request behavior is itself part of the function's value. -/
def summarize (api_key model text : String)
    (respond : GroqRequest → HttpResponse) :
    List GroqRequest × Except String String :=
  let req := groqRequestFor api_key model text
  let res := respond req
  let outcome : Except String String :=
    if !(statusIsSuccess res.status) then
      .error ("Groq API error: " ++ toString res.status ++ " - " ++ res.body)
    else
      match res.jsonBody with
      | none => .error "failed to deserialize Groq JSON"
      | some v =>
        match (v.getKey "choices").bind JsonValue.asArr with
        | none => .error "Groq API response missing choices array"
        | some choices =>
          match choices.head? with
          | none => .error "Groq API response choices array is empty"
          | some first =>
            match first.getKey "message" with
            | none => .error "Groq API response missing message in first choice"
            | some message =>
              match (message.getKey "content").bind JsonValue.asStr with
              | none => .error "Groq API response missing content string in message"
              | some content => .ok content
  ([req], outcome)

/-- The happy-path extraction chain
choices / first element / message / content-as-string, used to state when
the expected response structure is present. -/
def extractContent (v : JsonValue) : Option String :=
  ((v.getKey "choices").bind JsonValue.asArr).bind fun choices =>
    choices.head?.bind fun first =>
      (first.getKey "message").bind fun message =>
        (message.getKey "content").bind JsonValue.asStr

/- ------------------------------------------------------------------ -/
/- Helper lemmas.                                                     -/

theorem length_le_one_of_forall_eq {α : Type} {l : List α} {a : α}
    (hnd : l.Nodup) (h : ∀ x ∈ l, x = a) : l.length ≤ 1 := by
  match l with
  | [] => simp
  | [_] => simp
  | x :: y :: t =>
    exfalso
    have hx := h x (by simp)
    have hy := h y (by simp)
    rw [List.nodup_cons] at hnd
    exact hnd.1 (by rw [hx, ← hy]; exact List.mem_cons_self y t)

/-- A map with no row matching the id leaves the notes list unchanged. -/
theorem map_if_id_eq_self {f : NoteRow → NoteRow} {l : List NoteRow} {nid : Int}
    (hno : ∀ n ∈ l, n.id ≠ nid) :
    (l.map (fun n => if n.id == nid then f n else n)) = l := by
  have hcongr : ∀ n ∈ l, (if n.id == nid then f n else n) = id n := by
    intro n hn
    simp [beq_eq_false_iff_ne.mpr (hno n hn)]
  rw [List.map_congr_left hcongr, List.map_id]

/- ------------------------------------------------------------------ -/
/- Claim theorems.                                                    -/

/-- C8: the notes/groups variant's Db::init drops and recreates every table
on startup, so no accounts or notes survive a restart, while the
summarization variant's init creates its single table only if absent and
keeps existing rows, so its data is persistent and additive. -/
theorem C8_init_persistence_contract :
    ∀ (s : DbState) (t : SummaryDbState),
      Db.init s = emptyDb
      ∧ (Db.init s).accounts = [] ∧ (Db.init s).notes = []
      ∧ (summaryDbInit t).summaries = t.summaries
      ∧ (summaryDbInit t).tableCreated = true := by
  intro s t
  refine ⟨rfl, rfl, rfl, ?_, ?_⟩ <;> unfold summaryDbInit
  · split <;> rfl
  · split
    · assumption
    · rfl

/-- C6: deleting a note removes its row and cascade-deletes all of its
note_shares rows, so the note no longer appears in any group's note listing
and no dangling share referencing it remains. -/
theorem C6_delete_note_cascades (s : DbState) (nid : Int) :
    (∀ g : Int, ∀ e ∈ Db.list_notes_for_group (Db.delete_note s nid).1 g, e.id ≠ nid)
    ∧ (∀ ns ∈ (Db.delete_note s nid).1.note_shares, ns.note_id ≠ nid)
    ∧ (∀ n ∈ (Db.delete_note s nid).1.notes, n.id ≠ nid) := by
  refine ⟨?_, ?_, ?_⟩
  · intro g e he
    unfold Db.list_notes_for_group at he
    have he2 := (List.perm_insertionSort Db.noteListOrder _).mem_iff.mp he
    rw [List.mem_flatMap] at he2
    obtain ⟨n, hn, hmap⟩ := he2
    rw [List.mem_map] at hmap
    obtain ⟨ns, _, rfl⟩ := hmap
    simp only [Db.delete_note, Db.deleteNoteRows, List.mem_filter] at hn
    have := hn.2
    simp only [Bool.not_eq_eq_eq_not, Bool.not_true, beq_eq_false_iff_ne] at this
    simpa using this
  · intro ns hns
    simp only [Db.delete_note, Db.deleteNoteRows, List.mem_filter] at hns
    have := hns.2
    simpa using this
  · intro n hn
    simp only [Db.delete_note, Db.deleteNoteRows, List.mem_filter] at hn
    have := hn.2
    simpa using this

/-- C6 witness: in a store with notes 1 and 2 both shared to group 1,
deleting note 1 leaves note 2 present, and its id differs from 1. -/
theorem C6_delete_note_cascades_witness :
    (⟨2, none, none, "#FFFF88", 0, 0, 200, 150, 0, none, 0, 0⟩ : NoteRow) ∈
      (Db.delete_note
        ⟨[], [], [],
         [⟨1, none, none, "#FFFF88", 0, 0, 200, 150, 0, none, 0, 0⟩,
          ⟨2, none, none, "#FFFF88", 0, 0, 200, 150, 0, none, 0, 0⟩],
         [⟨1, 1, 1, false, 0⟩, ⟨2, 2, 1, false, 0⟩], 1, 2, 1, 3, 3⟩ 1).1.notes
    ∧ (⟨2, none, none, "#FFFF88", 0, 0, 200, 150, 0, none, 0, 0⟩ : NoteRow).id ≠ 1 := by
  constructor
  · decide
  · exact (C6_delete_note_cascades
      ⟨[], [], [],
       [⟨1, none, none, "#FFFF88", 0, 0, 200, 150, 0, none, 0, 0⟩,
        ⟨2, none, none, "#FFFF88", 0, 0, 200, 150, 0, none, 0, 0⟩],
       [⟨1, 1, 1, false, 0⟩, ⟨2, 2, 1, false, 0⟩], 1, 2, 1, 3, 3⟩ 1).2.2
      ⟨2, none, none, "#FFFF88", 0, 0, 200, 150, 0, none, 0, 0⟩ (by decide)

/-- C5: adding an already-present (group, user) member is a silent no-op:
it succeeds, changes nothing, and the membership relation keeps exactly one
row for the pair. -/
theorem C5_add_member_idempotent (s : DbState) (gid uid : Int) (role : String)
    (now : Nat)
    (hmem : ∃ gu ∈ s.group_users, gu.group_id = gid ∧ gu.user_id = uid)
    (hnodup : (s.group_users.map (fun gu => (gu.group_id, gu.user_id))).Nodup) :
    Db.add_user_to_group s gid uid role now = some s
    ∧ s.group_users.countP
        (fun gu => gu.group_id == gid && gu.user_id == uid) = 1 := by
  obtain ⟨gu0, hgu0, hg, hu⟩ := hmem
  have hany : s.group_users.any
      (fun gu => gu.group_id == gid && gu.user_id == uid) = true := by
    rw [List.any_eq_true]
    exact ⟨gu0, hgu0, by simp [hg, hu]⟩
  refine ⟨by unfold Db.add_user_to_group; rw [if_pos hany], ?_⟩
  rw [List.countP_eq_length_filter]
  have hle : (s.group_users.filter
      (fun gu => gu.group_id == gid && gu.user_id == uid)).length ≤ 1 := by
    have hsub := (List.filter_sublist (p := fun gu =>
      gu.group_id == gid && gu.user_id == uid) s.group_users).map
      (fun gu => (gu.group_id, gu.user_id))
    have hnd2 := hnodup.sublist hsub
    have hall : ∀ x ∈ (s.group_users.filter (fun gu =>
        gu.group_id == gid && gu.user_id == uid)).map
        (fun gu => (gu.group_id, gu.user_id)), x = (gid, uid) := by
      intro x hx
      rw [List.mem_map] at hx
      obtain ⟨gu, hgu, rfl⟩ := hx
      rw [List.mem_filter] at hgu
      have := hgu.2
      simp only [Bool.and_eq_true, beq_iff_eq] at this
      rw [this.1, this.2]
    have := length_le_one_of_forall_eq hnd2 hall
    rwa [List.length_map] at this
  have hge : 1 ≤ (s.group_users.filter
      (fun gu => gu.group_id == gid && gu.user_id == uid)).length := by
    have : gu0 ∈ s.group_users.filter
        (fun gu => gu.group_id == gid && gu.user_id == uid) := by
      rw [List.mem_filter]
      exact ⟨hgu0, by simp [hg, hu]⟩
    have := List.length_pos.mpr (List.ne_nil_of_mem this)
    omega
  omega

/-- C5 witness: evaluated on a store holding exactly the membership
(group 1, user 2), the duplicate add succeeds unchanged and one row for the
pair remains. -/
theorem C5_add_member_idempotent_witness :
    (∃ gu ∈ ([⟨1, 1, 2, "member", 0⟩] : List GroupUserRow),
        gu.group_id = 1 ∧ gu.user_id = 2)
    ∧ (Db.add_user_to_group
        ⟨[], [], [⟨1, 1, 2, "member", 0⟩], [], [], 1, 1, 2, 1, 1⟩ 1 2 "owner" 5 =
          some ⟨[], [], [⟨1, 1, 2, "member", 0⟩], [], [], 1, 1, 2, 1, 1⟩
      ∧ ([⟨1, 1, 2, "member", 0⟩] : List GroupUserRow).countP
          (fun gu => gu.group_id == 1 && gu.user_id == 2) = 1) := by
  refine ⟨by decide, ?_⟩
  exact C5_add_member_idempotent
    ⟨[], [], [⟨1, 1, 2, "member", 0⟩], [], [], 1, 1, 2, 1, 1⟩ 1 2 "owner" 5
    (by decide) (by decide)

/-- Helper: every note the position handler leaves under the requested id
carries exactly the written geometry (including the defaulted columns). -/
theorem update_note_position_fields (s : DbState) (nid : Int)
    (p : UpdateNotePositionRequest) (now : Nat) (hpos : 0 < nid) :
    ∀ n ∈ (Api.update_note_position s nid p now).1.notes, n.id = nid →
      n.x = p.x ∧ n.y = p.y ∧ n.width = p.width.getD 200
      ∧ n.height = p.height.getD 150 ∧ n.z_index = p.z_index.getD 0 := by
  intro n hn hid
  unfold Api.update_note_position at hn
  rw [if_neg (by omega)] at hn
  simp only [Db.update_note_position] at hn
  split at hn <;> simp only [] at hn <;>
  · rw [List.mem_map] at hn
    obtain ⟨orig, _, heq⟩ := hn
    by_cases hb : (orig.id == nid) = true
    · rw [if_pos hb] at heq
      subst heq
      exact ⟨rfl, rfl, rfl, rfl, rfl⟩
    · rw [if_neg hb] at heq
      subst heq
      exact absurd (beq_iff_eq.mpr hid) hb

/-- Helper: every note the content handler leaves under the requested id
carries exactly the written title, content, and normalized color. -/
theorem update_note_content_fields (s : DbState) (nid : Int)
    (p : UpdateNoteContentRequest) (now : Nat) (hpos : 0 < nid) :
    ∀ n ∈ (Api.update_note_content s nid p now).1.notes, n.id = nid →
      n.title = p.title ∧ n.content = p.content
      ∧ n.color = normalize_color p.color := by
  intro n hn hid
  unfold Api.update_note_content at hn
  rw [if_neg (by omega)] at hn
  simp only [Db.update_note_content] at hn
  split at hn <;> simp only [] at hn <;>
  · rw [List.mem_map] at hn
    obtain ⟨orig, _, heq⟩ := hn
    by_cases hb : (orig.id == nid) = true
    · rw [if_pos hb] at heq
      subst heq
      exact ⟨rfl, rfl, rfl⟩
    · rw [if_neg hb] at heq
      subst heq
      exact absurd (beq_iff_eq.mpr hid) hb

/-- C7: the storage updates report an affected-row boolean that is true
exactly when a note with the id exists, and on a nonexistent id both update
handlers mutate nothing and answer 404 with code note_not_found. -/
theorem C7_update_nonexistent_not_found (s : DbState) (nid : Int)
    (pp : UpdateNotePositionRequest) (pc : UpdateNoteContentRequest)
    (now : Nat) :
    ((Db.update_note_position s nid pp.x pp.y (pp.width.getD 200)
        (pp.height.getD 150) (pp.z_index.getD 0) now).2 = true
      ↔ ∃ n ∈ s.notes, n.id = nid)
    ∧ ((Db.update_note_content s nid pc.title pc.content
        (normalize_color pc.color) now).2 = true
      ↔ ∃ n ∈ s.notes, n.id = nid)
    ∧ (0 < nid → (∀ n ∈ s.notes, n.id ≠ nid) →
        Api.update_note_position s nid pp now = (s, .err 404 "note_not_found")
        ∧ Api.update_note_content s nid pc now = (s, .err 404 "note_not_found")) := by
  have hiff : (s.notes.any (fun n => n.id == nid) = true) ↔ ∃ n ∈ s.notes, n.id = nid := by
    rw [List.any_eq_true]
    constructor
    · rintro ⟨n, hn, hb⟩
      exact ⟨n, hn, beq_iff_eq.mp hb⟩
    · rintro ⟨n, hn, he⟩
      exact ⟨n, hn, beq_iff_eq.mpr he⟩
  refine ⟨hiff, hiff, ?_⟩
  intro hid hno
  have hany : s.notes.any (fun n => n.id == nid) = false := by
    rw [List.any_eq_false]
    intro n hn
    simp [beq_eq_false_iff_ne.mpr (hno n hn)]
  constructor
  · unfold Api.update_note_position
    rw [if_neg (by omega)]
    simp only [Db.update_note_position, hany, Bool.false_eq_true, if_false]
    rw [map_if_id_eq_self hno]
  · unfold Api.update_note_content
    rw [if_neg (by omega)]
    simp only [Db.update_note_content, hany, Bool.false_eq_true, if_false]
    rw [map_if_id_eq_self hno]

/-- C7 witness: in the empty store, updating note 5 replies 404
note_not_found and leaves the store untouched. -/
theorem C7_update_nonexistent_not_found_witness :
    (0 < (5 : Int)) ∧ (∀ n ∈ emptyDb.notes, n.id ≠ 5)
    ∧ Api.update_note_position emptyDb 5 ⟨1, 2, none, none, none⟩ 0 =
        (emptyDb, .err 404 "note_not_found")
    ∧ Api.update_note_content emptyDb 5 ⟨none, none, none⟩ 0 =
        (emptyDb, .err 404 "note_not_found") := by
  refine ⟨by decide, by decide, ?_, ?_⟩
  · exact ((C7_update_nonexistent_not_found emptyDb 5 ⟨1, 2, none, none, none⟩
      ⟨none, none, none⟩ 0).2.2 (by decide) (by decide)).1
  · exact ((C7_update_nonexistent_not_found emptyDb 5 ⟨1, 2, none, none, none⟩
      ⟨none, none, none⟩ 0).2.2 (by decide) (by decide)).2

/-- C10: both note updates are full overwrites.  A geometry update with
width, height, and z_index omitted writes 200, 150, and 0 over the stored
values, and a content update with everything omitted nulls title and
content and resets the color to the default FFFF88 hex. -/
theorem C10_updates_overwrite_omitted_fields (s : DbState) (nid x y : Int)
    (now : Nat) (hpos : 0 < nid) (hex : ∃ n ∈ s.notes, n.id = nid) :
    ((Api.update_note_position s nid ⟨x, y, none, none, none⟩ now).2 = .ok ()
      ∧ ∀ n ∈ (Api.update_note_position s nid ⟨x, y, none, none, none⟩ now).1.notes,
          n.id = nid → n.x = x ∧ n.y = y ∧ n.width = 200 ∧ n.height = 150
            ∧ n.z_index = 0)
    ∧ ((Api.update_note_content s nid ⟨none, none, none⟩ now).2 = .ok ()
      ∧ ∀ n ∈ (Api.update_note_content s nid ⟨none, none, none⟩ now).1.notes,
          n.id = nid → n.title = none ∧ n.content = none
            ∧ n.color = "#FFFF88") := by
  have hany : s.notes.any (fun n => n.id == nid) = true := by
    rw [List.any_eq_true]
    obtain ⟨n, hn, he⟩ := hex
    exact ⟨n, hn, beq_iff_eq.mpr he⟩
  refine ⟨⟨?_, ?_⟩, ?_, ?_⟩
  · unfold Api.update_note_position
    rw [if_neg (by omega)]
    simp only [Db.update_note_position, hany, if_true]
  · intro n hn hid
    have := update_note_position_fields s nid ⟨x, y, none, none, none⟩ now hpos n hn hid
    simpa using this
  · unfold Api.update_note_content
    rw [if_neg (by omega)]
    simp only [Db.update_note_content, hany, if_true]
  · intro n hn hid
    have := update_note_content_fields s nid ⟨none, none, none⟩ now hpos n hn hid
    simpa [normalize_color, defaultColor] using this

/-- C10 witness: on a store with one note carrying width 10, height 20,
stack 7, a green color and texts, the omitted-field content update nulls
the texts and resets the color. -/
theorem C10_updates_overwrite_omitted_fields_witness :
    (0 < (1 : Int))
    ∧ (∃ n ∈ ({ emptyDb with
          notes := [⟨1, some "t", some "c", "#BBF7D0", 3, 4, 10, 20, 7, none, 0, 0⟩],
          nextNoteId := 2 } : DbState).notes, n.id = 1)
    ∧ ∀ n ∈ (Api.update_note_content
        { emptyDb with
          notes := [⟨1, some "t", some "c", "#BBF7D0", 3, 4, 10, 20, 7, none, 0, 0⟩],
          nextNoteId := 2 } 1 ⟨none, none, none⟩ 9).1.notes,
        n.id = 1 → n.title = none ∧ n.content = none ∧ n.color = "#FFFF88" := by
  refine ⟨by decide, by decide, ?_⟩
  exact (C10_updates_overwrite_omitted_fields
    { emptyDb with
      notes := [⟨1, some "t", some "c", "#BBF7D0", 3, 4, 10, 20, 7, none, 0, 0⟩],
      nextNoteId := 2 } 1 0 0 9 (by decide) (by decide)).2.2

/-- C2: creating a group is one transaction that either inserts both the
group row and the creator's owner membership (whereupon the creator's
membership listing contains the new group with role owner) or, when the
creator does not resolve, fails with neither row inserted. -/
theorem C2_create_group_owner_membership (s : DbState) (gname : String)
    (cb : Int) (now : Nat) :
    ((¬ ∃ a ∈ s.accounts, a.id = cb) → Db.create_group s gname cb now = none)
    ∧ ((∃ a ∈ s.accounts, a.id = cb) →
        ∃ s2 gid, Db.create_group s gname cb now = some (s2, gid)
          ∧ (∃ g ∈ s2.groups, g.id = gid ∧ g.group_name = gname ∧ g.created_by = cb)
          ∧ (∃ gu ∈ s2.group_users, gu.group_id = gid ∧ gu.user_id = cb
              ∧ gu.role = "owner")
          ∧ (∃ e ∈ Db.list_groups_for_user s2 cb, e.id = gid
              ∧ e.group_name = gname ∧ e.role = "owner")) := by
  constructor
  · intro hno
    have hany : s.accounts.any (fun a => a.id == cb) = false := by
      rw [List.any_eq_false]
      intro a ha hb
      exact hno ⟨a, ha, beq_iff_eq.mp hb⟩
    unfold Db.create_group
    rw [if_neg (by rw [hany]; exact Bool.false_ne_true)]
  · rintro ⟨a, ha, hid⟩
    have hany : s.accounts.any (fun a => a.id == cb) = true := by
      rw [List.any_eq_true]
      exact ⟨a, ha, beq_iff_eq.mpr hid⟩
    unfold Db.create_group
    rw [if_pos hany]
    refine ⟨_, s.nextGroupId, rfl, ?_, ?_, ?_⟩
    · exact ⟨_, List.mem_append_right _ (List.mem_cons_self _ _), rfl, rfl, rfl⟩
    · exact ⟨_, List.mem_append_right _ (List.mem_cons_self _ _), rfl, rfl, rfl⟩
    · unfold Db.list_groups_for_user
      refine ⟨{ id := s.nextGroupId, group_name := gname, created_by := cb
              , created_at := now, role := "owner" }, ?_, rfl, rfl, rfl⟩
      rw [List.mem_flatMap]
      refine ⟨{ id := s.nextGroupId, group_name := gname, created_by := cb
              , created_at := now }
            , List.mem_append_right _ (List.mem_cons_self _ _), ?_⟩
      rw [List.mem_map]
      refine ⟨{ id := s.nextGroupUserId, group_id := s.nextGroupId, user_id := cb
              , role := "owner", joined_at := now }, ?_, rfl⟩
      rw [List.mem_filter]
      exact ⟨List.mem_append_right _ (List.mem_cons_self _ _), by simp⟩

/-- C2 witness: with account 1 present, creating a group for it yields the
group row, the owner membership, and a listing entry with role owner. -/
theorem C2_create_group_owner_membership_witness :
    (∃ a ∈ ([⟨1, "Alice", "a@x.com", "h", 0⟩] : List AccountRow), a.id = 1)
    ∧ ∃ s2 gid,
        Db.create_group
          ⟨[⟨1, "Alice", "a@x.com", "h", 0⟩], [], [], [], [], 2, 1, 1, 1, 1⟩
          "Team" 1 3 = some (s2, gid)
        ∧ (∃ g ∈ s2.groups, g.id = gid ∧ g.group_name = "Team" ∧ g.created_by = 1)
        ∧ (∃ gu ∈ s2.group_users, gu.group_id = gid ∧ gu.user_id = 1
            ∧ gu.role = "owner")
        ∧ (∃ e ∈ Db.list_groups_for_user s2 1, e.id = gid
            ∧ e.group_name = "Team" ∧ e.role = "owner") := by
  refine ⟨by decide, ?_⟩
  exact (C2_create_group_owner_membership
    ⟨[⟨1, "Alice", "a@x.com", "h", 0⟩], [], [], [], [], 2, 1, 1, 1, 1⟩
    "Team" 1 3).2 (by decide)

theorem countP_or_split {α : Type} (p q : α → Bool) (l : List α) :
    l.countP (fun x => p x || q x)
      = l.countP p + l.countP (fun x => q x && !(p x)) := by
  induction l with
  | nil => simp
  | cons x t ih =>
    rw [List.countP_cons, List.countP_cons, List.countP_cons, ih]
    cases hp : p x <;> cases hq : q x <;> simp [hp, hq] <;> omega

theorem countP_not_add {α : Type} (p : α → Bool) (l : List α) :
    l.countP p + l.countP (fun a => !(p a)) = l.length := by
  induction l with
  | nil => simp
  | cons a t ih =>
    rw [List.countP_cons, List.countP_cons]
    cases h : p a <;> simp [h] <;> omega

/-- Characterization of the clear_notes_for_group loop: folding deletions of
a selected id list removes exactly the notes whose id occurs in the list,
cascades exactly their shares, touches nothing else, and accumulates one
count per note row actually deleted. -/
theorem clearStep_foldl_spec (ids : List Int) (s : DbState) (k : Nat) :
    (ids.foldl Db.clearStep (s, k)).1.notes
        = s.notes.filter (fun n => !(ids.contains n.id))
    ∧ (ids.foldl Db.clearStep (s, k)).1.note_shares
        = s.note_shares.filter (fun ns => !(ids.contains ns.note_id))
    ∧ (ids.foldl Db.clearStep (s, k)).1.accounts = s.accounts
    ∧ (ids.foldl Db.clearStep (s, k)).1.groups = s.groups
    ∧ (ids.foldl Db.clearStep (s, k)).1.group_users = s.group_users
    ∧ (ids.foldl Db.clearStep (s, k)).2
        = k + s.notes.countP (fun n => ids.contains n.id) := by
  induction ids generalizing s k with
  | nil => simp
  | cons a ids ih =>
    rw [List.foldl_cons]
    have hstep : Db.clearStep (s, k) a =
        ({ s with
            notes := s.notes.filter (fun n => !(n.id == a)),
            note_shares := s.note_shares.filter (fun ns => !(ns.note_id == a)) },
         k + s.notes.countP (fun n => n.id == a)) := rfl
    rw [hstep]
    obtain ⟨h1, h2, h3, h4, h5, h6⟩ := ih
      { s with
          notes := s.notes.filter (fun n => !(n.id == a)),
          note_shares := s.note_shares.filter (fun ns => !(ns.note_id == a)) }
      (k + s.notes.countP (fun n => n.id == a))
    refine ⟨?_, ?_, h3, h4, h5, ?_⟩
    · rw [h1]
      simp only [List.filter_filter]
      apply List.filter_congr
      intro n _
      simp only [List.contains_cons]
      cases hb : n.id == a <;> cases hc : ids.contains n.id <;> simp [hb, hc]
    · rw [h2]
      simp only [List.filter_filter]
      apply List.filter_congr
      intro ns _
      simp only [List.contains_cons]
      cases hb : ns.note_id == a <;> cases hc : ids.contains ns.note_id <;>
        simp [hb, hc]
    · rw [h6, List.countP_filter]
      have hsplit := countP_or_split (fun n : NoteRow => n.id == a)
        (fun n : NoteRow => ids.contains n.id) s.notes
      have hcongr : s.notes.countP (fun n => (a :: ids).contains n.id)
          = s.notes.countP (fun n => (n.id == a) || ids.contains n.id) := by
        apply List.countP_congr
        intro n _
        simp
      rw [hcongr, hsplit]
      omega

/-- C1: clearing a group's notes deletes exactly the note rows that have a
share row to the group (leaving notes shared only to other groups and every
other table untouched), runs as one unit, reports a removed-count equal to
the number of note rows actually deleted, and the handler returns that
count. -/
theorem C1_clear_group_notes_spec (s : DbState) (gid : Int) :
    (Db.clear_notes_for_group s gid).1.notes
      = s.notes.filter (fun n =>
          !(s.note_shares.any (fun ns => ns.note_id == n.id && ns.group_id == gid)))
    ∧ (Db.clear_notes_for_group s gid).2
      = s.notes.countP (fun n =>
          s.note_shares.any (fun ns => ns.note_id == n.id && ns.group_id == gid))
    ∧ (Db.clear_notes_for_group s gid).2
      = s.notes.length - (Db.clear_notes_for_group s gid).1.notes.length
    ∧ (Db.clear_notes_for_group s gid).1.accounts = s.accounts
    ∧ (Db.clear_notes_for_group s gid).1.groups = s.groups
    ∧ (Db.clear_notes_for_group s gid).1.group_users = s.group_users
    ∧ (0 < gid → ensure_group_exists s gid = true →
        Api.clear_group_notes s gid =
          ((Db.clear_notes_for_group s gid).1
          , .ok (Db.clear_notes_for_group s gid).2)) := by
  have hbridge : ∀ x : Int,
      ((s.note_shares.filter (fun ns => ns.group_id == gid)).map
        (fun ns => ns.note_id)).contains x
      = s.note_shares.any (fun ns => ns.note_id == x && ns.group_id == gid) := by
    intro x
    rw [Bool.eq_iff_iff]
    simp only [List.contains_iff_exists_mem_beq, List.mem_map, List.mem_filter,
      List.any_eq_true, Bool.and_eq_true, beq_iff_eq]
    constructor
    · rintro ⟨y, ⟨ns, ⟨hns, hg⟩, rfl⟩, hxy⟩
      exact ⟨ns, hns, hxy.symm, hg⟩
    · rintro ⟨ns, hns, hid, hg⟩
      exact ⟨ns.note_id, ⟨ns, ⟨hns, hg⟩, rfl⟩, hid.symm⟩
  obtain ⟨h1, h2, h3, h4, h5, h6⟩ := clearStep_foldl_spec
    ((s.note_shares.filter (fun ns => ns.group_id == gid)).map
      (fun ns => ns.note_id)) s 0
  have hnotes : (Db.clear_notes_for_group s gid).1.notes
      = s.notes.filter (fun n =>
          !(s.note_shares.any (fun ns => ns.note_id == n.id && ns.group_id == gid))) := by
    unfold Db.clear_notes_for_group
    rw [h1]
    apply List.filter_congr
    intro n _
    rw [hbridge]
  have hcount : (Db.clear_notes_for_group s gid).2
      = s.notes.countP (fun n =>
          s.note_shares.any (fun ns => ns.note_id == n.id && ns.group_id == gid)) := by
    unfold Db.clear_notes_for_group
    rw [h6, Nat.zero_add]
    apply List.countP_congr
    intro n _
    rw [hbridge]
  refine ⟨hnotes, hcount, ?_, h3, h4, h5, ?_⟩
  · rw [hcount, hnotes]
    have hadd := countP_not_add (fun n : NoteRow =>
      s.note_shares.any (fun ns => ns.note_id == n.id && ns.group_id == gid)) s.notes
    have hlen : s.notes.countP (fun n =>
        !(s.note_shares.any (fun ns => ns.note_id == n.id && ns.group_id == gid)))
        = (s.notes.filter (fun n =>
            !(s.note_shares.any (fun ns => ns.note_id == n.id && ns.group_id == gid)))).length := by
      rw [List.countP_eq_length_filter]
    omega
  · intro hpos hex
    unfold Api.clear_group_notes
    rw [if_neg (by omega), hex]
    rfl

/-- C1 witness: with note 1 shared to group 1 and note 2 shared only to
group 2, clearing group 1 reports one removed row and the handler returns
it. -/
theorem C1_clear_group_notes_spec_witness :
    (0 < (1 : Int))
    ∧ ensure_group_exists
        ⟨[], [⟨1, "g1", 1, 0⟩, ⟨2, "g2", 1, 0⟩], [],
         [⟨1, none, none, "#FFFF88", 0, 0, 200, 150, 0, none, 0, 0⟩,
          ⟨2, none, none, "#FFFF88", 0, 0, 200, 150, 0, none, 0, 0⟩],
         [⟨1, 1, 1, false, 0⟩, ⟨2, 2, 2, false, 0⟩], 1, 3, 1, 3, 3⟩ 1 = true
    ∧ Api.clear_group_notes
        ⟨[], [⟨1, "g1", 1, 0⟩, ⟨2, "g2", 1, 0⟩], [],
         [⟨1, none, none, "#FFFF88", 0, 0, 200, 150, 0, none, 0, 0⟩,
          ⟨2, none, none, "#FFFF88", 0, 0, 200, 150, 0, none, 0, 0⟩],
         [⟨1, 1, 1, false, 0⟩, ⟨2, 2, 2, false, 0⟩], 1, 3, 1, 3, 3⟩ 1 =
      ((Db.clear_notes_for_group
        ⟨[], [⟨1, "g1", 1, 0⟩, ⟨2, "g2", 1, 0⟩], [],
         [⟨1, none, none, "#FFFF88", 0, 0, 200, 150, 0, none, 0, 0⟩,
          ⟨2, none, none, "#FFFF88", 0, 0, 200, 150, 0, none, 0, 0⟩],
         [⟨1, 1, 1, false, 0⟩, ⟨2, 2, 2, false, 0⟩], 1, 3, 1, 3, 3⟩ 1).1
      , .ok (Db.clear_notes_for_group
        ⟨[], [⟨1, "g1", 1, 0⟩, ⟨2, "g2", 1, 0⟩], [],
         [⟨1, none, none, "#FFFF88", 0, 0, 200, 150, 0, none, 0, 0⟩,
          ⟨2, none, none, "#FFFF88", 0, 0, 200, 150, 0, none, 0, 0⟩],
         [⟨1, 1, 1, false, 0⟩, ⟨2, 2, 2, false, 0⟩], 1, 3, 1, 3, 3⟩ 1).2) := by
  refine ⟨by decide, by decide, ?_⟩
  exact (C1_clear_group_notes_spec
    ⟨[], [⟨1, "g1", 1, 0⟩, ⟨2, "g2", 1, 0⟩], [],
     [⟨1, none, none, "#FFFF88", 0, 0, 200, 150, 0, none, 0, 0⟩,
      ⟨2, none, none, "#FFFF88", 0, 0, 200, 150, 0, none, 0, 0⟩],
     [⟨1, 1, 1, false, 0⟩, ⟨2, 2, 2, false, 0⟩], 1, 3, 1, 3, 3⟩ 1).2.2.2.2.2.2
    (by decide) (by decide)

/-- C9: summarize makes exactly one outbound request, wrapping the text in
the fixed instruction prompt with bearer-token authentication; a non-2xx
response becomes an error carrying the status and body; a success with the
expected structure returns the first choice's message content; a success
without it fails with an explicit error. -/
theorem C9_summarize_contract (api_key model text : String)
    (respond : GroqRequest → HttpResponse) :
    (summarize api_key model text respond).1 = [groqRequestFor api_key model text]
    ∧ (groqRequestFor api_key model text).url = groqUrl
    ∧ (groqRequestFor api_key model text).bearerToken = api_key
    ∧ (groqRequestFor api_key model text).messages
        = [⟨"user", groqPromptHeader ++ text⟩]
    ∧ (statusIsSuccess (respond (groqRequestFor api_key model text)).status = false →
        (summarize api_key model text respond).2 =
          .error ("Groq API error: "
            ++ toString (respond (groqRequestFor api_key model text)).status
            ++ " - " ++ (respond (groqRequestFor api_key model text)).body))
    ∧ (statusIsSuccess (respond (groqRequestFor api_key model text)).status = true →
        (∀ v c, (respond (groqRequestFor api_key model text)).jsonBody = some v →
          extractContent v = some c →
          (summarize api_key model text respond).2 = .ok c)
        ∧ (((respond (groqRequestFor api_key model text)).jsonBody.bind
              extractContent) = none →
            ∃ msg, (summarize api_key model text respond).2 = .error msg)) := by
  refine ⟨rfl, rfl, rfl, rfl, ?_, ?_⟩
  · intro h
    unfold summarize
    dsimp only
    rw [if_pos (by simp [h])]
  · intro h
    constructor
    · intro v c hv hc
      simp only [extractContent, Option.bind_eq_some] at hc
      obtain ⟨choices, ⟨cv, hcv, hcva⟩, first, h2, message, h3, mv, hmv, hmva⟩ := hc
      unfold summarize
      dsimp only
      rw [if_neg (by simp [h]), hv]
      dsimp only
      simp only [hcv, Option.some_bind, hcva, h2, h3, hmv, hmva]
    · intro hn
      unfold summarize
      dsimp only
      rw [if_neg (by simp [h])]
      cases hjb : (respond (groqRequestFor api_key model text)).jsonBody
      · exact ⟨_, rfl⟩
      · rename_i v
        rw [hjb] at hn
        simp only [Option.some_bind] at hn
        dsimp only
        cases h1 : (v.getKey "choices").bind JsonValue.asArr
        · exact ⟨_, rfl⟩
        · rename_i choices
          dsimp only
          cases h2 : choices.head?
          · exact ⟨_, rfl⟩
          · rename_i first
            dsimp only
            cases h3 : first.getKey "message"
            · exact ⟨_, rfl⟩
            · rename_i message
              dsimp only
              cases h4 : (message.getKey "content").bind JsonValue.asStr
              · exact ⟨_, rfl⟩
              · exfalso
                simp only [extractContent, h1, h2, h3, h4, Option.some_bind] at hn
                exact Option.some_ne_none _ hn

/-- C9 witness: against a transport answering 500 with body boom, summarize
sends one request and surfaces the status and body in its error. -/
theorem C9_summarize_contract_witness :
    statusIsSuccess
      ((fun _ : GroqRequest => (⟨500, "boom", none⟩ : HttpResponse))
        (groqRequestFor "key" "m" "hello")).status = false
    ∧ (summarize "key" "m" "hello"
        (fun _ => (⟨500, "boom", none⟩ : HttpResponse))).1
        = [groqRequestFor "key" "m" "hello"]
    ∧ (summarize "key" "m" "hello"
        (fun _ => (⟨500, "boom", none⟩ : HttpResponse))).2
        = .error "Groq API error: 500 - boom" := by
  refine ⟨by decide, ?_, ?_⟩
  · exact (C9_summarize_contract "key" "m" "hello"
      (fun _ => (⟨500, "boom", none⟩ : HttpResponse))).1
  · have := (C9_summarize_contract "key" "m" "hello"
      (fun _ => (⟨500, "boom", none⟩ : HttpResponse))).2.2.2.2.1 (by decide)
    rw [this]
    rfl

theorem toNat_ofNat_of_lt_surrogate {n : Nat} (h : n < 55296) :
    (Char.ofNat n).toNat = n := by
  rw [Char.ofNat, dif_pos (Or.inl h)]
  rfl

theorem isRustWhitespace_eq_false_of_bounds {c : Char} (h1 : 35 ≤ c.toNat)
    (h2 : c.toNat ≤ 127) : isRustWhitespace c = false := by
  rw [Bool.eq_false_iff]
  intro hw
  simp only [isRustWhitespace, Bool.or_eq_true, Bool.and_eq_true,
    decide_eq_true_eq, beq_iff_eq] at hw
  omega

theorem isAsciiHexDigit_bounds {c : Char} (h : isAsciiHexDigit c = true) :
    48 ≤ c.toNat ∧ c.toNat ≤ 102 := by
  simp only [isAsciiHexDigit, Bool.or_eq_true, Bool.and_eq_true,
    decide_eq_true_eq] at h
  omega

theorem isUpperHexDigit_bounds {c : Char} (h : isUpperHexDigit c = true) :
    48 ≤ c.toNat ∧ c.toNat ≤ 70 := by
  simp only [isUpperHexDigit, Bool.or_eq_true, Bool.and_eq_true,
    decide_eq_true_eq] at h
  omega

theorem isUpperHexDigit_isAsciiHexDigit {c : Char}
    (h : isUpperHexDigit c = true) : isAsciiHexDigit c = true := by
  simp only [isUpperHexDigit, Bool.or_eq_true, Bool.and_eq_true,
    decide_eq_true_eq] at h
  simp only [isAsciiHexDigit, Bool.or_eq_true, Bool.and_eq_true,
    decide_eq_true_eq]
  omega

theorem utf8Size_eq_one_of_toNat_le {c : Char} (h : c.toNat ≤ 127) :
    c.utf8Size = 1 := by
  have hle : c.val ≤ UInt32.ofNatCore 0x7F (by decide) := by
    rw [UInt32.le_def, BitVec.le_def]
    exact h
  rw [Char.utf8Size]
  rw [if_pos hle]

theorem toUpper_eq_self_of_not_lower {c : Char}
    (h : ¬(97 ≤ c.toNat ∧ c.toNat ≤ 122)) : c.toUpper = c := by
  simp only [Char.toUpper]
  rw [if_neg (by omega)]

theorem toUpper_isUpperHexDigit {c : Char} (h : isAsciiHexDigit c = true) :
    isUpperHexDigit c.toUpper = true := by
  simp only [isAsciiHexDigit, Bool.or_eq_true, Bool.and_eq_true,
    decide_eq_true_eq] at h
  rcases h with (h | h) | h
  · rw [toUpper_eq_self_of_not_lower (by omega)]
    simp only [isUpperHexDigit, Bool.or_eq_true, Bool.and_eq_true,
      decide_eq_true_eq]
    omega
  · have hup : c.toUpper.toNat = c.toNat - 32 := by
      simp only [Char.toUpper]
      rw [if_pos (by omega)]
      exact toNat_ofNat_of_lt_surrogate (by omega)
    simp only [isUpperHexDigit, Bool.or_eq_true, Bool.and_eq_true,
      decide_eq_true_eq, hup]
    omega
  · rw [toUpper_eq_self_of_not_lower (by omega)]
    simp only [isUpperHexDigit, Bool.or_eq_true, Bool.and_eq_true,
      decide_eq_true_eq]
    omega

theorem toUpper_eq_self_of_isUpperHexDigit {c : Char}
    (h : isUpperHexDigit c = true) : c.toUpper = c := by
  have := isUpperHexDigit_bounds h
  exact toUpper_eq_self_of_not_lower (by omega)

theorem utf8Len_eq_length {l : List Char} (h : ∀ c ∈ l, c.utf8Size = 1) :
    utf8Len l = l.length := by
  induction l with
  | nil => rfl
  | cons c t ih =>
    simp only [utf8Len, List.map_cons, List.sum_cons, List.length_cons] at *
    rw [h c (List.mem_cons_self c t), ih (fun d hd => h d (List.mem_cons_of_mem c hd))]
    omega

theorem dropWhile_eq_self_of_forall {p : Char → Bool} {l : List Char}
    (h : ∀ c ∈ l, p c = false) : l.dropWhile p = l := by
  cases l with
  | nil => rfl
  | cons a t =>
    rw [List.dropWhile_cons, if_neg]
    rw [h a (List.mem_cons_self a t)]
    exact Bool.false_ne_true

theorem trimChars_eq_self {l : List Char}
    (h : ∀ c ∈ l, isRustWhitespace c = false) : trimChars l = l := by
  unfold trimChars
  rw [dropWhile_eq_self_of_forall h]
  rw [dropWhile_eq_self_of_forall (fun c hc => h c (List.mem_reverse.mp hc))]
  exact List.reverse_reverse l

theorem normalize_color_of_empty {raw : String}
    (h : trimChars raw.data = []) : normalize_color (some raw) = defaultColor := by
  unfold normalize_color
  simp [h]

theorem normalize_color_of_hexCond {raw : String}
    (h2 : hexColorCond (trimChars raw.data) = true) :
    normalize_color (some raw)
      = String.mk ((trimChars raw.data).map Char.toUpper) := by
  unfold normalize_color
  have hne : (trimChars raw.data).isEmpty = false := by
    cases htc : trimChars raw.data with
    | nil => rw [htc] at h2; exact absurd h2 (by decide)
    | cons c0 rest => rfl
  simp only [hne, h2, Bool.false_eq_true, if_false, if_true]

theorem normalize_color_of_named {raw : String}
    (h2 : hexColorCond (trimChars raw.data) = false)
    (hne : trimChars raw.data ≠ []) :
    normalize_color (some raw)
      = namedColorLookup (String.mk (rustToLower (trimChars raw.data))) := by
  unfold normalize_color
  have h1 : (trimChars raw.data).isEmpty = false := by
    cases htc : trimChars raw.data with
    | nil => exact absurd htc hne
    | cons c0 rest => rfl
  simp only [h1, h2, Bool.false_eq_true, if_false]

theorem wellFormedHex_normalize_color (c : Option String) :
    wellFormedHex (normalize_color c) = true := by
  cases c with
  | none => decide
  | some raw =>
    by_cases hemp : trimChars raw.data = []
    · rw [normalize_color_of_empty hemp]
      decide
    by_cases hhex : hexColorCond (trimChars raw.data) = true
    · rw [normalize_color_of_hexCond hhex]
      obtain ⟨c0, rest, htc⟩ : ∃ c0 rest, trimChars raw.data = c0 :: rest := by
        cases h : trimChars raw.data with
        | nil => exact absurd h hemp
        | cons c0 rest => exact ⟨c0, rest, rfl⟩
      rw [htc] at hhex
      simp only [hexColorCond, Bool.and_eq_true, beq_iff_eq] at hhex
      obtain ⟨⟨hsw, hlen⟩, hall⟩ := hhex
      have hc0 : c0 = '#' := by
        simp only [startsWithHash, beq_iff_eq] at hsw
        exact hsw
      subst hc0
      simp only [List.drop_one, List.tail_cons, List.all_eq_true] at hall
      have hsizes : ∀ d ∈ rest, d.utf8Size = 1 := by
        intro d hd
        exact utf8Size_eq_one_of_toNat_le
          (by have := isAsciiHexDigit_bounds (hall d hd); omega)
      have hrest6 : rest.length = 6 := by
        have h7 : utf8Len ('#' :: rest) = 7 := hlen
        have : Char.utf8Size '#' = 1 := by decide
        simp only [utf8Len, List.map_cons, List.sum_cons, this] at h7
        have := utf8Len_eq_length hsizes
        simp only [utf8Len] at this
        omega
      rw [htc]
      have hup : Char.toUpper '#' = '#' := by decide
      unfold wellFormedHex
      have hdata : (String.mk (('#' :: rest).map Char.toUpper)).data
          = '#' :: rest.map Char.toUpper := by
        simp [List.map_cons, hup]
      rw [hdata]
      have c1 : startsWithHash ('#' :: rest.map Char.toUpper) = true := by
        simp [startsWithHash]
      have c2 : ((('#' :: rest.map Char.toUpper).drop 1).length == 6) = true := by
        simp [hrest6]
      have c3 : (('#' :: rest.map Char.toUpper).drop 1).all isUpperHexDigit = true := by
        simp only [List.drop_one, List.tail_cons, List.all_eq_true]
        intro d hd
        rw [List.mem_map] at hd
        obtain ⟨e, he, rfl⟩ := hd
        exact toUpper_isUpperHexDigit (hall e he)
      rw [c1, c2, c3]
      rfl
    · rw [normalize_color_of_named (by rw [Bool.eq_false_iff]; exact hhex) hemp]
      unfold namedColorLookup
      split_ifs <;> decide

theorem normalize_color_fixpoint {t : String} (h : wellFormedHex t = true) :
    normalize_color (some t) = t := by
  simp only [wellFormedHex, Bool.and_eq_true, beq_iff_eq] at h
  obtain ⟨⟨hsw, hlen⟩, hall⟩ := h
  obtain ⟨c0, rest, htd⟩ : ∃ c0 rest, t.data = c0 :: rest := by
    cases hd : t.data with
    | nil => rw [hd] at hsw; exact absurd hsw (by decide)
    | cons c0 rest => exact ⟨c0, rest, rfl⟩
  rw [htd] at hsw hlen hall
  have hc0 : c0 = '#' := by
    simp only [startsWithHash, beq_iff_eq] at hsw
    exact hsw
  subst hc0
  simp only [List.drop_one, List.tail_cons] at hlen hall
  rw [List.all_eq_true] at hall
  have hnws : ∀ c ∈ t.data, isRustWhitespace c = false := by
    intro c hc
    rw [htd] at hc
    rcases List.mem_cons.mp hc with rfl | hc
    · decide
    · exact isRustWhitespace_eq_false_of_bounds
        (by have := isUpperHexDigit_bounds (hall c hc); omega)
        (by have := isUpperHexDigit_bounds (hall c hc); omega)
  have htrim : trimChars t.data = t.data := trimChars_eq_self hnws
  have hhex : hexColorCond (trimChars t.data) = true := by
    rw [htrim, htd]
    simp only [hexColorCond, startsWithHash, beq_self_eq_true, Bool.true_and,
      List.drop_one, List.tail_cons, Bool.and_eq_true, beq_iff_eq,
      List.all_eq_true]
    constructor
    · have hsizes : ∀ d ∈ rest, d.utf8Size = 1 := by
        intro d hd
        exact utf8Size_eq_one_of_toNat_le
          (by have := isUpperHexDigit_bounds (hall d hd); omega)
      have h1 : Char.utf8Size '#' = 1 := by decide
      have h2 := utf8Len_eq_length hsizes
      simp only [utf8Len, List.map_cons, List.sum_cons, h1]
      simp only [utf8Len] at h2
      omega
    · intro d hd
      exact isUpperHexDigit_isAsciiHexDigit (hall d hd)
  rw [normalize_color_of_hexCond hhex, htrim, htd]
  have hmap : ('#' :: rest).map Char.toUpper = '#' :: rest := by
    simp only [List.map_cons]
    have hup : Char.toUpper '#' = '#' := by decide
    rw [hup]
    have : rest.map Char.toUpper = rest := by
      have hcongr : ∀ d ∈ rest, Char.toUpper d = id d := fun d hd =>
        toUpper_eq_self_of_isUpperHexDigit (hall d hd)
      rw [List.map_congr_left hcongr, List.map_id]
    rw [this]
  rw [hmap, ← htd]

/-- C4: normalize_color is idempotent and total: renormalizing an output
changes nothing, and every output is the default color or a well-formed 7
character uppercase hex color (in fact always the latter shape, the default
itself being such a string). -/
theorem C4_normalize_color_idempotent_total (c : Option String) :
    normalize_color (some (normalize_color c)) = normalize_color c
    ∧ (normalize_color c = defaultColor
        ∨ wellFormedHex (normalize_color c) = true) := by
  exact ⟨normalize_color_fixpoint (wellFormedHex_normalize_color c),
    Or.inr (wellFormedHex_normalize_color c)⟩

theorem create_note_some_mem (s : DbState) (title content : Option String)
    (color : String) (x y width height z_index : Int) (created_by : Option Int)
    (group_id : Int) (can_edit : Bool) (now : Nat) (s3 : DbState) (nid : Int)
    (h : Db.create_note s title content color x y width height z_index
      created_by group_id can_edit now = some (s3, nid)) :
    ∃ n ∈ s3.notes, n.id = nid ∧ n.color = color := by
  cases created_by with
  | none =>
    unfold Db.create_note at h
    dsimp only at h
    rw [Bool.true_and] at h
    cases hg : s.groups.any (fun g => g.id == group_id) with
    | false =>
      rw [hg] at h
      simp at h
    | true =>
      rw [hg, if_pos rfl] at h
      simp only [Option.some.injEq, Prod.mk.injEq] at h
      obtain ⟨h4, h5⟩ := h
      subst h4
      subst h5
      exact ⟨_, List.mem_append_right _ (List.mem_cons_self _ _), rfl, rfl⟩
  | some cid =>
    unfold Db.create_note at h
    dsimp only at h
    cases hc : (s.accounts.any (fun a => a.id == cid)
        && s.groups.any (fun g => g.id == group_id)) with
    | false =>
      rw [hc] at h
      simp at h
    | true =>
      rw [hc, if_pos rfl] at h
      simp only [Option.some.injEq, Prod.mk.injEq] at h
      obtain ⟨h4, h5⟩ := h
      subst h4
      subst h5
      exact ⟨_, List.mem_append_right _ (List.mem_cons_self _ _), rfl, rfl⟩

/-- Helper: a successful create_group_note stored a note under the returned
id whose color is the normalization of the requested color. -/
theorem create_group_note_ok_color (s : DbState) (gid : Int)
    (p : CreateNoteRequest) (now : Nat) (s2 : DbState) (nid : Int)
    (h : Api.create_group_note s gid p now = (s2, .ok nid)) :
    ∃ n ∈ s2.notes, n.id = nid ∧ n.color = normalize_color p.color := by
  unfold Api.create_group_note at h
  by_cases h1 : gid ≤ 0
  · rw [if_pos h1] at h
    exact absurd (congrArg Prod.snd h) (by simp)
  rw [if_neg h1] at h
  cases h2 : ensure_group_exists s gid with
  | false =>
    simp only [h2, Bool.not_false, if_true] at h
    exact absurd (congrArg Prod.snd h) (by simp)
  | true =>
    simp only [h2, Bool.not_true, Bool.false_eq_true, if_false] at h
    cases hpc : p.created_by with
    | none =>
      simp only [hpc] at h
      split at h
      · exact absurd (congrArg Prod.snd h) (by simp)
      · rename_i s3 nid3 heq
        rw [Prod.mk.injEq] at h
        obtain ⟨rfl, hok⟩ := h
        injection hok with hnid
        subst hnid
        exact create_note_some_mem _ _ _ _ _ _ _ _ _ _ _ _ _ _ _ heq
    | some aid =>
      simp only [hpc] at h
      cases h3 : ensure_account_exists s aid with
      | false =>
        simp only [h3, Bool.not_false, if_true] at h
        exact absurd (congrArg Prod.snd h) (by simp)
      | true =>
        simp only [h3, Bool.not_true, Bool.false_eq_true, if_false] at h
        cases h4 : Db.is_user_in_group s gid aid with
        | false =>
          simp only [h4, Bool.not_false, if_true] at h
          exact absurd (congrArg Prod.snd h) (by simp)
        | true =>
          simp only [h4, Bool.not_true, Bool.false_eq_true, if_false] at h
          split at h
          · exact absurd (congrArg Prod.snd h) (by simp)
          · rename_i s3 nid3 heq
            rw [Prod.mk.injEq] at h
            obtain ⟨rfl, hok⟩ := h
            injection hok with hnid
            subst hnid
            exact create_note_some_mem _ _ _ _ _ _ _ _ _ _ _ _ _ _ _ heq

/-- Helper: when the lowercased trimmed input equals a given name that does
not start with a hash, normalize_color lands in the palette lookup. -/
theorem normalize_color_of_lowered {raw name : String}
    (hname : String.mk (rustToLower (trimChars raw.data)) = name)
    (hnh : startsWithHash name.data = false) (hnn : name.data ≠ []) :
    normalize_color (some raw) = namedColorLookup name := by
  have hdata : rustToLower (trimChars raw.data) = name.data := by
    rw [← hname]
  have hne : trimChars raw.data ≠ [] := by
    intro e
    have : name.data = [] := by rw [← hdata, e]; rfl
    exact hnn this
  have hsw : startsWithHash (trimChars raw.data) = false := by
    cases htc : trimChars raw.data with
    | nil => rfl
    | cons c0 rest =>
      cases hb : (c0 == '#') with
      | false => simp [startsWithHash, hb]
      | true =>
        exfalso
        have hc0 : c0 = '#' := beq_iff_eq.mp hb
        rw [htc, hc0] at hdata
        have h1 : rustToLowerChar '#' = ['#'] := by decide
        have hlow : rustToLower ('#' :: rest) = '#' :: rustToLower rest := by
          simp [rustToLower, h1]
        rw [hlow] at hdata
        rw [← hdata] at hnh
        simp [startsWithHash] at hnh
  have hhex : hexColorCond (trimChars raw.data) = false := by
    unfold hexColorCond
    rw [hsw]
    rfl
  rw [normalize_color_of_named hhex hne, hname]

/-- C3: trimming, the default for empty or missing input, the uppercased
pass-through of seven character hash-hex inputs, the six case-insensitive
named colors, the default fallback for everything else, and the application
of the same function on note creation and content update. -/
theorem C3_normalize_color_behavior :
    (normalize_color none = "#FFFF88")
    ∧ (∀ raw : String, trimChars raw.data = [] →
        normalize_color (some raw) = "#FFFF88")
    ∧ (∀ raw : String, startsWithHash (trimChars raw.data) = true →
        (trimChars raw.data).length = 7 →
        ((trimChars raw.data).drop 1).all isAsciiHexDigit = true →
        normalize_color (some raw) = String.mk ((trimChars raw.data).map Char.toUpper))
    ∧ (∀ raw : String,
        String.mk (rustToLower (trimChars raw.data)) = "yellow" →
          normalize_color (some raw) = "#FFFF88")
    ∧ (∀ raw : String,
        String.mk (rustToLower (trimChars raw.data)) = "pink" →
          normalize_color (some raw) = "#FBCFE8")
    ∧ (∀ raw : String,
        String.mk (rustToLower (trimChars raw.data)) = "green" →
          normalize_color (some raw) = "#BBF7D0")
    ∧ (∀ raw : String,
        String.mk (rustToLower (trimChars raw.data)) = "blue" →
          normalize_color (some raw) = "#BFDBFE")
    ∧ (∀ raw : String,
        String.mk (rustToLower (trimChars raw.data)) = "orange" →
          normalize_color (some raw) = "#FED7AA")
    ∧ (∀ raw : String,
        String.mk (rustToLower (trimChars raw.data)) = "purple" →
          normalize_color (some raw) = "#E9D5FF")
    ∧ (∀ raw : String, trimChars raw.data ≠ [] →
        hexColorCond (trimChars raw.data) = false →
        String.mk (rustToLower (trimChars raw.data)) ∉
          (["yellow", "pink", "green", "blue", "orange", "purple"] : List String) →
        normalize_color (some raw) = "#FFFF88")
    ∧ (∀ (s : DbState) (gid : Int) (p : CreateNoteRequest) (now : Nat)
        (s2 : DbState) (nid : Int),
        Api.create_group_note s gid p now = (s2, .ok nid) →
          ∃ n ∈ s2.notes, n.id = nid ∧ n.color = normalize_color p.color)
    ∧ (∀ (s : DbState) (nid : Int) (q : UpdateNoteContentRequest) (now : Nat),
        0 < nid → ∀ n ∈ (Api.update_note_content s nid q now).1.notes,
          n.id = nid → n.color = normalize_color q.color) := by
  refine ⟨rfl, ?_, ?_, ?_, ?_, ?_, ?_, ?_, ?_, ?_, ?_, ?_⟩
  · intro raw h
    exact (normalize_color_of_empty h).trans rfl
  · intro raw hsw hlen hall
    apply normalize_color_of_hexCond
    obtain ⟨c0, rest, htc⟩ : ∃ c0 rest, trimChars raw.data = c0 :: rest := by
      cases h : trimChars raw.data with
      | nil => rw [h] at hsw; exact absurd hsw (by decide)
      | cons c0 rest => exact ⟨c0, rest, rfl⟩
    have hc0 : c0 = '#' := by
      rw [htc] at hsw
      simp only [startsWithHash, beq_iff_eq] at hsw
      exact hsw
    subst hc0
    rw [htc] at hlen hall ⊢
    simp only [List.drop_one, List.tail_cons, List.all_eq_true] at hall
    have hu : utf8Len ('#' :: rest) = 7 := by
      have hsizes : ∀ d ∈ rest, d.utf8Size = 1 := by
        intro d hd
        exact utf8Size_eq_one_of_toNat_le
          (by have := isAsciiHexDigit_bounds (hall d hd); omega)
      have h1 : Char.utf8Size '#' = 1 := by decide
      have h2 := utf8Len_eq_length hsizes
      simp only [List.length_cons] at hlen
      simp only [utf8Len, List.map_cons, List.sum_cons, h1]
      simp only [utf8Len] at h2
      omega
    unfold hexColorCond
    have c1 : startsWithHash ('#' :: rest) = true := by simp [startsWithHash]
    have c2 : (utf8Len ('#' :: rest) == 7) = true := by simp [hu]
    have c3 : (('#' :: rest).drop 1).all isAsciiHexDigit = true := by
      simp only [List.drop_one, List.tail_cons, List.all_eq_true]
      exact hall
    rw [c1, c2, c3]
    rfl
  · intro raw h
    rw [normalize_color_of_lowered h (by decide) (by decide)]
    decide
  · intro raw h
    rw [normalize_color_of_lowered h (by decide) (by decide)]
    decide
  · intro raw h
    rw [normalize_color_of_lowered h (by decide) (by decide)]
    decide
  · intro raw h
    rw [normalize_color_of_lowered h (by decide) (by decide)]
    decide
  · intro raw h
    rw [normalize_color_of_lowered h (by decide) (by decide)]
    decide
  · intro raw h
    rw [normalize_color_of_lowered h (by decide) (by decide)]
    decide
  · intro raw hne hhexF hnot
    rw [normalize_color_of_named hhexF hne]
    simp only [List.mem_cons, List.not_mem_nil, or_false, not_or] at hnot
    obtain ⟨n1, n2, n3, n4, n5, n6⟩ := hnot
    unfold namedColorLookup
    rw [if_neg n1, if_neg n2, if_neg n3, if_neg n4, if_neg n5, if_neg n6]
    rfl
  · intro s gid p now s2 nid h
    exact create_group_note_ok_color s gid p now s2 nid h
  · intro s nid q now hpos n hn hid
    exact (update_note_content_fields s nid q now hpos n hn hid).2.2

/-- C3 witness: the pink named color maps to its fixed hex value both for a
no-break-space-prefixed input (Unicode trim) and for a KELVIN SIGN ending
(full Unicode lowercase). -/
theorem C3_normalize_color_behavior_witness :
    String.mk (rustToLower (trimChars ("\u00A0pink").data)) = "pink"
    ∧ normalize_color (some "\u00A0pink") = "#FBCFE8"
    ∧ String.mk (rustToLower (trimChars ("pin\u212A").data)) = "pink"
    ∧ normalize_color (some "pin\u212A") = "#FBCFE8" :=
  ⟨by decide, C3_normalize_color_behavior.2.2.2.2.1 "\u00A0pink" (by decide),
   by decide, C3_normalize_color_behavior.2.2.2.2.1 "pin\u212A" (by decide)⟩
